import Mathlib

/-!
Shallow embedding of the Ytiona/validator-js form-validation library
(`src/validator-ts.ts`, `src/validator-2.0.0.js`, `src/validator-1.0.0.js`).

JavaScript runtime values are modelled by `JSVal`; numbers by `JSNum`
(rationals plus NaN and the two infinities). `parseInt(String(x), 10)`
is modelled including the rendering regimes of `Number::toString`:
fixed decimal notation for `1e-6 <= |x| < 1e21` (where parseInt stops at
the decimal point, i.e. truncates toward zero) and exponential notation
outside it (where parseInt reads only the leading significant digit,
e.g. `parseInt("1e+21") === 1`).
Arrays, plain objects, functions, dates and regexps carry a reference
id because JavaScript `===` compares them by reference.
-/

namespace VLib

/-- JavaScript number: NaN, the infinities, or a finite value. -/
inductive JSNum where
  | nan
  | posInf
  | negInf
  | val (q : ℚ)

/-- JavaScript runtime value. -/
inductive JSVal where
  | undefV
  | null
  | bool (b : Bool)
  | num (n : JSNum)
  | str (s : String)
  | arr (id : Nat) (elems : List JSVal)
  | obj (id : Nat) (fields : List (String × JSVal))
  | func (id : Nat)
  | date (id : Nat) (validTime : Bool)
  | regexpRef (id : Nat)

/-- A runtime error raised while executing the embedded code. -/
inductive JSErr where
  | typeError
  | badCall (msg : String)
deriving DecidableEq

/-- Truncation toward zero of a rational, as `Math.trunc` / integer division. -/
def jsTruncQ (q : ℚ) : ℤ := q.num.tdiv (q.den : ℤ)

/-- The leading decimal digit of a natural number, by repeated division;
the first argument is fuel, always called with at least `n` so it never
runs out (the recursion needs at most the digit count of `n`). -/
def firstDigitAux : ℕ → ℕ → ℕ
  | _, 0 => 0
  | 0, n => n
  | fuel + 1, n => if n < 10 then n else firstDigitAux fuel (n / 10)

/-- The leading decimal digit of a natural number (0 for 0). -/
def firstDigitNat (n : ℕ) : ℕ := firstDigitAux n n

/-- The number of decimal digits of a natural number (0 for 0), with fuel
as in `firstDigitAux`. -/
def digitLenAux : ℕ → ℕ → ℕ
  | _, 0 => 0
  | 0, _ => 0
  | fuel + 1, n => if n < 10 then 1 else digitLenAux fuel (n / 10) + 1

/-- The number of decimal digits of a natural number (0 for 0). -/
def digitLen (n : ℕ) : ℕ := digitLenAux n n

/-- The first significant decimal digit of the fraction `a / b` with
`0 < a < b`: shift `a` up by the digit-length difference and divide. -/
def leadingDigitFrac (a b : ℕ) : ℕ :=
  let x := a * 10 ^ (digitLen b - digitLen a)
  if x < b then (x * 10) / b else x / b

/-- The first significant decimal digit of a nonzero rational. -/
def jsLeadingDigitNat (q : ℚ) : ℕ :=
  if q.den ≤ q.num.natAbs then firstDigitNat (q.num.natAbs / q.den)
  else leadingDigitFrac q.num.natAbs q.den

/-- Signed first significant decimal digit: what `parseInt` reads off an
exponentially rendered number `"d.ddd…e±N"` (a single digit stands before
the point or the `e`, so parsing stops after it). -/
def jsLeadingDigit (q : ℚ) : ℤ :=
  if q.num < 0 then -(jsLeadingDigitNat q : ℤ) else (jsLeadingDigitNat q : ℤ)

/-- Whether `Number::toString` renders `q` in fixed (non-exponential)
decimal notation: zero, or `1e-6 ≤ |q| < 1e21` (ECMAScript switches to
exponential notation outside that window). Stated on the numerator and
denominator so it evaluates by kernel reduction:
`|q| ≥ 1e-6 ↔ den ≤ 10^6·|num|` and `|q| < 1e21 ↔ |num| < 10^21·den`. -/
def jsFixedForm (q : ℚ) : Bool :=
  q.num == 0 ||
    (decide (q.den ≤ 10 ^ 6 * q.num.natAbs) && decide (q.num.natAbs < 10 ^ 21 * q.den))

/-- `parseInt(String(n), 10)` on a number: NaN and the infinities render as
strings that parse to NaN; a number rendered in fixed decimal notation
parses up to the decimal point, i.e. truncates toward zero; a number
rendered exponentially (`|n| ≥ 1e21` or `0 < |n| < 1e-6`) parses only the
single leading significant digit, e.g. `parseInt(String(1e21), 10) = 1`. -/
def jsParseIntNum : JSNum → JSNum
  | .nan => .nan
  | .posInf => .nan
  | .negInf => .nan
  | .val q =>
    if jsFixedForm q then .val ((jsTruncQ q : ℤ) : ℚ)
    else .val ((jsLeadingDigit q : ℤ) : ℚ)

/-- `Math.trunc` on a number (used only for the spec-side reading of
"truncation equals itself" in claim C8): it fixes the infinities. -/
def jsMathTrunc : JSNum → JSNum
  | .nan => .nan
  | .posInf => .posInf
  | .negInf => .negInf
  | .val q => .val ((jsTruncQ q : ℤ) : ℚ)

/-- JavaScript strict equality on numbers: `NaN === x` is false for every x. -/
def jsNumEq : JSNum → JSNum → Bool
  | .nan, _ => false
  | _, .nan => false
  | .posInf, .posInf => true
  | .negInf, .negInf => true
  | .val a, .val b => decide (a = b)
  | _, _ => false

/-- JavaScript `typeof`; note `typeof null === 'object'`. -/
def jsTypeof : JSVal → String
  | .undefV => "undefined"
  | .null => "object"
  | .bool _ => "boolean"
  | .num _ => "number"
  | .str _ => "string"
  | .arr _ _ => "object"
  | .obj _ _ => "object"
  | .func _ => "function"
  | .date _ _ => "object"
  | .regexpRef _ => "object"

/-- JavaScript strict equality `===`: structural on primitives, reference
identity on arrays, objects, functions, dates and regexps. -/
def jsEq : JSVal → JSVal → Bool
  | .undefV, .undefV => true
  | .null, .null => true
  | .bool a, .bool b => a == b
  | .num a, .num b => jsNumEq a b
  | .str a, .str b => a == b
  | .arr i _, .arr j _ => i == j
  | .obj i _, .obj j _ => i == j
  | .func i, .func j => i == j
  | .date i _, .date j _ => i == j
  | .regexpRef i, .regexpRef j => i == j
  | _, _ => false

/-- JavaScript truthiness. -/
def jsTruthy : JSVal → Bool
  | .undefV => false
  | .null => false
  | .bool b => b
  | .num .nan => false
  | .num (.val q) => decide (q ≠ 0)
  | .num _ => true
  | .str s => !(s == "")
  | _ => true

/-- `Validator.isEmpty`: `value === '' || value === null || value === undefined`. -/
def isEmpty (v : JSVal) : Bool :=
  jsEq v (.str "") || jsEq v .null || jsEq v .undefV

/-- `Validator.isString`: `typeof value === 'string'`. -/
def isString (v : JSVal) : Bool := jsTypeof v == "string"

/-- `Validator.isNumber`: `typeof value === 'number' && !isNaN(value)`
(excludes NaN, keeps the infinities). -/
def isNumber : JSVal → Bool
  | .num .nan => false
  | .num _ => true
  | _ => false

/-- `Validator.isBoolean`: `typeof value === 'boolean'`. -/
def isBoolean (v : JSVal) : Bool := jsTypeof v == "boolean"

/-- `Validator.isFunction`: `typeof value === 'function'`. -/
def isFunction (v : JSVal) : Bool := jsTypeof v == "function"

/-- `Validator.isRegexp`: `value instanceof RegExp`. -/
def isRegexp : JSVal → Bool
  | .regexpRef _ => true
  | _ => false

/-- `Validator.isArray`: `Array.isArray(value)`. -/
def isArray : JSVal → Bool
  | .arr _ _ => true
  | _ => false

/-- `Validator.isObject`: `typeof value === 'object' && !Validator.isArray(value)`.
Since `typeof null === 'object'`, this classifies `null` as an object. -/
def isObject (v : JSVal) : Bool := jsTypeof v == "object" && !(isArray v)

/-- `Validator.isInteger` (all three versions):
`Validator.isNumber(value) && parseInt(value, 10) === value`. -/
def isInteger_ts (v : JSVal) : Bool :=
  isNumber v && (match v with
    | .num n => jsNumEq (jsParseIntNum n) n
    | _ => false)

/-- `Validator.isFloat` in `src/validator-ts.ts`:
`Validator.isNumber(value) && !Validator.isInteger(value)`. -/
def isFloat_ts (v : JSVal) : Bool := isNumber v && !(isInteger_ts v)

/-- `Validator.isFloat` in `src/validator-1.0.0.js` and `src/validator-2.0.0.js`:
`Validator.isNumber(value) && !Validator.isTnteger(value)`. `isTnteger` is a
typo for `isInteger` and is not defined on the class, so whenever the
left conjunct is true the call `Validator.isTnteger(value)` invokes
`undefined` and throws a TypeError; otherwise `&&` short-circuits to false. -/
def isFloat_v2 (v : JSVal) : Except JSErr Bool :=
  if isNumber v then .error .typeError else .ok false

/-- Spec-side reading of claim C8: "integer iff it is a number whose
truncation equals itself", with truncation read as `Math.trunc`. -/
def specInteger (v : JSVal) : Bool :=
  isNumber v && (match v with
    | .num n => jsNumEq (jsMathTrunc n) n
    | _ => false)

/-- The value is a number rendered in fixed (non-exponential) decimal
notation; the infinities render as `"Infinity"` and count as not fixed. -/
def jsNumFixed : JSVal → Bool
  | .num (.val q) => jsFixedForm q
  | _ => false

/-- `Validator.isDate`: probes `value.getTime` etc.; a property access on
`null` or `undefined` throws a TypeError. Only date values expose the
accessors; for them the check is `!isNaN(value.getTime())`. -/
def isDate : JSVal → Except JSErr Bool
  | .undefV => .error .typeError
  | .null => .error .typeError
  | .date _ validTime => .ok validTime
  | _ => .ok false

/-- Property read `v[key]`: throws on `null`/`undefined`; looks the key up in
a plain object's own fields; yields `undefined` on every other value
(no other own properties are modelled). -/
def getProp (v : JSVal) (key : String) : Except JSErr JSVal :=
  match v with
  | .undefV => .error .typeError
  | .null => .error .typeError
  | .obj _ fields => .ok ((fields.lookup key).getD .undefV)
  | _ => .ok .undefV

/-- `Validator.oneOf(value, validList)` applied to a list already known to be
an array: a linear search with `===`. -/
def oneOfList (v : JSVal) (list : List JSVal) : Bool :=
  list.any (fun x => jsEq v x)

/-- The contents of `Validator.types`. -/
def typeTags : List String :=
  ["string", "number", "boolean", "function", "float", "integer",
   "array", "object", "date", "regexp"]

/-- Length read `value.length` on a value that is not `null`/`undefined`:
strings and arrays have a numeric length, everything else yields
`undefined` (so a `<=`/`>=` comparison against it is false). -/
def jsLen : JSVal → Option Nat
  | .str s => some s.length
  | .arr _ es => some es.length
  | _ => none

/-- Length read `value.length` including the throwing cases:
`null.length` / `undefined.length` raise a TypeError. -/
def jsLenE : JSVal → Except JSErr (Option Nat)
  | .undefV => .error .typeError
  | .null => .error .typeError
  | v => .ok (jsLen v)

/-- `value.length <= m` where a missing length reads as `undefined`
(`undefined <= m` is a NaN comparison, hence false). -/
def jsLenCmpLe (l : Option Nat) (m : JSVal) : Bool :=
  match l, m with
  | some len, .num (.val q) => decide ((len : ℚ) ≤ q)
  | _, _ => false

/-- `value.length >= m`, same conventions as `jsLenCmpLe`. -/
def jsLenCmpGe (l : Option Nat) (m : JSVal) : Bool :=
  match l, m with
  | some len, .num (.val q) => decide (q ≤ (len : ℚ))
  | _, _ => false

/-- JavaScript `m > 0` on the rule's length bound. -/
def jsGtZero : JSVal → Bool
  | .num (.val q) => decide (0 < q)
  | .num .posInf => true
  | _ => false

/-- What an invocation of a rule's custom `validator` function can do:
return a plain (non-Promise) value, return a Promise that resolves,
return a Promise that rejects with a payload, or throw synchronously. -/
inductive VdrOutcome where
  | ret (v : JSVal)
  | promiseOk
  | promiseErr (e : JSVal)
  | throwE (e : JSVal)

/-- The `validator` entry of a rule when it is set (truthy): either a real
function, or some truthy non-function (which the chain warns about and
passes). An absent/falsy entry is `none` at the `Rule` level. -/
inductive CustomV where
  | fn (f : JSVal → VdrOutcome)
  | notFn

/-- The `pattern` entry of a rule when it is set (truthy): a real regexp,
abstracted by its match function on the tested value, or some truthy
non-regexp (warn and pass). Absent/falsy is `none` at the `Rule` level. -/
inductive PatternV where
  | re (test : JSVal → Bool)
  | notRe

/-- One rule object (`RuleItem`). Each plain-data entry is a `JSVal` whose
absence is `undefined`, matching the truthiness tests in the source;
`pattern` and `validator` carry behaviour and are held as options whose
`none` covers the absent/falsy case. -/
structure Rule where
  required : JSVal := .undefV
  type : JSVal := .undefV
  pattern : Option PatternV := none
  validator : Option CustomV := none
  maxlength : JSVal := .undefV
  minlength : JSVal := .undefV
  enum : JSVal := .undefV
  message : JSVal := .undefV

/-- Names of the chain checks, used to record execution traces. -/
inductive StepName where
  | required
  | type
  | pattern
  | maxlen
  | minlen
  | enum
  | validator
deriving DecidableEq

/-- Result of one chain check, mirroring the heterogeneous return shape of
the source: a plain boolean, the `{pass, message}` object that only the
custom-validator check produces, or an uncaught exception. -/
inductive StepRes where
  | b (pass : Bool)
  | obj (pass : Bool) (message : JSVal)
  | exn (e : JSErr)

/-- Dispatch table for `Validator[`is${capitalize(type)}`]` in
`src/validator-ts.ts` (and `validator-1.0.0.js`, whose `isInteger` is the
same and whose `isFloat` is broken but unreachable there only via the
`float` tag — see `typePred_v2`). The default arm is unreachable because
the caller first checks `oneOf(type, Validator.types)`. -/
def typePred_ts (tag : String) (v : JSVal) : Except JSErr Bool :=
  match tag with
  | "string" => .ok (isString v)
  | "number" => .ok (isNumber v)
  | "boolean" => .ok (isBoolean v)
  | "function" => .ok (isFunction v)
  | "float" => .ok (isFloat_ts v)
  | "integer" => .ok (isInteger_ts v)
  | "array" => .ok (isArray v)
  | "object" => .ok (isObject v)
  | "date" => isDate v
  | "regexp" => .ok (isRegexp v)
  | _ => .ok true

/-- Same dispatch for `src/validator-2.0.0.js`, whose `isFloat` throws. -/
def typePred_v2 (tag : String) (v : JSVal) : Except JSErr Bool :=
  match tag with
  | "string" => .ok (isString v)
  | "number" => .ok (isNumber v)
  | "boolean" => .ok (isBoolean v)
  | "function" => .ok (isFunction v)
  | "float" => (isFloat_v2 v).map id
  | "integer" => .ok (isInteger_ts v)
  | "array" => .ok (isArray v)
  | "object" => .ok (isObject v)
  | "date" => isDate v
  | "regexp" => .ok (isRegexp v)
  | _ => .ok true

/-- The `catch (err)` block of `_customValidate` in `src/validator-ts.ts`:
`let errMsg = ''; if (typeof err === 'string') errMsg = err;
if (typeof err === 'object') errMsg = err.message;
return { pass: false, message: errMsg }`. Reading `err.message` on a
`null` payload throws (typeof null is 'object'). -/
def catchMsg_ts (e : JSVal) : StepRes :=
  if jsTypeof e == "string" then .obj false e
  else if jsTypeof e == "object" then
    match getProp e "message" with
    | .ok m => .obj false m
    | .error ex => .exn ex
  else .obj false (.str "")

/-- The `catch (err)` block of `_customValidate` in `src/validator-2.0.0.js`:
`let errMsg = err; if (typeof err === 'object') errMsg = err.message;`. -/
def catchMsg_v2 (e : JSVal) : StepRes :=
  if jsTypeof e == "object" then
    match getProp e "message" with
    | .ok m => .obj false m
    | .error ex => .exn ex
  else .obj false e

/-- Shared body of `_customValidate` after its version-specific prologue:
truthy non-function warns and passes; a function is invoked, a returned
Promise is awaited (rejection lands in the catch block), a plain falsy
return fails with the rule's own message. -/
def customBody (catchMsg : JSVal → StepRes) (vdr : Option CustomV) (v : JSVal) : StepRes :=
  match vdr with
  | none => .b true
  | some .notFn => .b true
  | some (.fn f) =>
    match f v with
    | .ret rv => if jsTruthy rv then .b true else .b false
    | .promiseOk => .b true
    | .promiseErr e => catchMsg e
    | .throwE e => catchMsg e

/-- One chain check of `src/validator-ts.ts` (`_validateRequired`,
`_validateType`, `_validatePattern`, `_validateMaxlen`, `_validateMinlen`,
`_validateEnum`, `_customValidate`). Every check except `required` begins
with `if (Validator.isEmpty(value)) return true`. -/
def stepEval_ts (st : StepName) (rule : Rule) (v : JSVal) : StepRes :=
  match st with
  | .required =>
    if jsTruthy rule.required then .b (!(isEmpty v)) else .b true
  | .type =>
    if isEmpty v then .b true
    else if jsTruthy rule.type then
      match rule.type with
      | .str tag =>
        if typeTags.contains tag then
          match typePred_ts tag v with
          | .ok pass => .b pass
          | .error ex => .exn ex
        else .b true
      | _ => .b true
    else .b true
  | .pattern =>
    if isEmpty v then .b true
    else
      match rule.pattern with
      | some (.re test) => .b (test v)
      | some .notRe => .b true
      | none => .b true
  | .maxlen =>
    if isEmpty v then .b true
    else if jsTruthy rule.maxlength then
      if isInteger_ts rule.maxlength && jsGtZero rule.maxlength then
        .b (jsLenCmpLe (jsLen v) rule.maxlength)
      else .b true
    else .b true
  | .minlen =>
    if isEmpty v then .b true
    else if jsTruthy rule.minlength then
      if isInteger_ts rule.minlength && jsGtZero rule.minlength then
        .b (jsLenCmpGe (jsLen v) rule.minlength)
      else .b true
    else .b true
  | .enum =>
    if isEmpty v then .b true
    else if jsTruthy rule.enum then
      match rule.enum with
      | .arr _ elems => .b (oneOfList v elems)
      | _ => .b true
    else .b true
  | .validator =>
    if isEmpty v then .b true
    else customBody catchMsg_ts rule.validator v

/-- One chain check of `src/validator-2.0.0.js`. Identical code except that
no check other than `required` tests `isEmpty`, the type dispatch reaches
the broken `isFloat`, and reading `.length` of `null`/`undefined` throws. -/
def stepEval_v2 (st : StepName) (rule : Rule) (v : JSVal) : StepRes :=
  match st with
  | .required =>
    if jsTruthy rule.required then .b (!(isEmpty v)) else .b true
  | .type =>
    if jsTruthy rule.type then
      match rule.type with
      | .str tag =>
        if typeTags.contains tag then
          match typePred_v2 tag v with
          | .ok pass => .b pass
          | .error ex => .exn ex
        else .b true
      | _ => .b true
    else .b true
  | .pattern =>
    match rule.pattern with
    | some (.re test) => .b (test v)
    | some .notRe => .b true
    | none => .b true
  | .maxlen =>
    if jsTruthy rule.maxlength then
      if isInteger_ts rule.maxlength && jsGtZero rule.maxlength then
        match jsLenE v with
        | .ok l => .b (jsLenCmpLe l rule.maxlength)
        | .error ex => .exn ex
      else .b true
    else .b true
  | .minlen =>
    if jsTruthy rule.minlength then
      if isInteger_ts rule.minlength && jsGtZero rule.minlength then
        match jsLenE v with
        | .ok l => .b (jsLenCmpGe l rule.minlength)
        | .error ex => .exn ex
      else .b true
    else .b true
  | .enum =>
    if jsTruthy rule.enum then
      match rule.enum with
      | .arr _ elems => .b (oneOfList v elems)
      | _ => .b true
    else .b true
  | .validator =>
    customBody catchMsg_v2 rule.validator v

/-- A per-field transform function. State is threaded explicitly so that a
transform's side effects (claim C10) can be observed; a pure transform
ignores and preserves the state. -/
def Tf (σ : Type) : Type := σ → JSVal → σ × JSVal

/-- The identity transform `value => value` used when none is configured. -/
def idTf {σ : Type} : Tf σ := fun s v => (s, v)

/-- A pure transform. -/
def pureTf (f : JSVal → JSVal) : Tf Unit := fun s v => (s, f v)

/-- Producer of the value handed to one chain check. The source evaluates
`currentTransform(form[field])` afresh before every check, so the runner
calls this once per executed check; it may raise (property read on
`null`/`undefined`). -/
def Next (σ : Type) : Type := σ → σ × Except JSErr JSVal

/-- The `currentTransform(form[field])` producer. -/
def nextOf {σ : Type} (tf : Tf σ) (form : JSVal) (field : String) : Next σ :=
  fun s =>
    match getProp form field with
    | .error e => (s, .error e)
    | .ok raw => let p := tf s raw; (p.1, .ok p.2)

/-- A producer that always yields the same already-transformed value; this is
the instance of `nextOf` with the identity transform and an ordinary
object field read, and also the spec-side "transform applied once" model. -/
def constNext (v : JSVal) : Next Unit := fun s => (s, .ok v)

/-- Outcome of running the whole chain for one rule. -/
inductive RuleOut where
  | pass
  | fail (errMsg : JSVal)
  | exn (e : JSErr)

/-- Outcome of `validateField`'s returned promise: resolve, reject with the
final rule (its `message` already resolved), or never settle because an
exception escaped inside the async executor. -/
inductive FieldOut where
  | pass
  | fail (finalRule : Rule)
  | hang

/-- The inner loop `for (const validator of chain)` of `validateField`
(identical in `src/validator-ts.ts` lines 178-205 and
`src/validator-2.0.0.js` lines 122-140, modulo the chain order, the check
bodies and the default `errMsg` — all passed in as parameters). The
returned trace lists the checks whose body actually ran, in order. -/
def runSteps {σ : Type} (eval : StepName → Rule → JSVal → StepRes) (next : Next σ)
    (rule : Rule) (em : JSVal) : List StepName → σ → σ × List StepName × RuleOut
  | [], s => (s, [], .pass)
  | st :: rest, s =>
    match next s with
    | (s', .error e) => (s', [], .exn e)
    | (s', .ok v) =>
      match eval st rule v with
      | .b true =>
        let r := runSteps eval next rule em rest s'
        (r.1, st :: r.2.1, r.2.2)
      | .b false => (s', [st], .fail em)
      | .obj true _ =>
        let r := runSteps eval next rule em rest s'
        (r.1, st :: r.2.1, r.2.2)
      | .obj false m => (s', [st], .fail m)
      | .exn e => (s', [st], .exn e)

/-- The outer loop `for (const rule of currentRules)` of `validateField`.
On the first failing check the loop stops and the rejection rule is
`{ ...rule, message: errMsg || rule.message }`; an escaped exception makes
the promise hang (the async executor's own rejection is discarded).
The invocation of a callable `message` / of the global `messageHook` is a
pure notification side effect and does not influence the outcome. -/
def runRules {σ : Type} (eval : StepName → Rule → JSVal → StepRes) (next : Next σ)
    (em : JSVal) (order : List StepName) :
    List Rule → σ → σ × List (List StepName) × FieldOut
  | [], s => (s, [], .pass)
  | rule :: rest, s =>
    match runSteps eval next rule em order s with
    | (s', tr, .pass) =>
      let r := runRules eval next em order rest s'
      (r.1, tr :: r.2.1, r.2.2)
    | (s', tr, .fail errMsg) =>
      (s', [tr], .fail { rule with message := if jsTruthy errMsg then errMsg else rule.message })
    | (s', tr, .exn _) => (s', [tr], .hang)

/-- The chain order of `src/validator-ts.ts` (lines 167-175). -/
def chainOrder_ts : List StepName :=
  [.required, .type, .pattern, .maxlen, .minlen, .enum, .validator]

/-- The chain order of `src/validator-2.0.0.js` (lines 112-120): the custom
validator sits before the length and enum checks. -/
def chainOrder_v2 : List StepName :=
  [.required, .type, .pattern, .validator, .maxlen, .minlen, .enum]

/-- Result of calling `validate`/`validateField`: either a synchronous throw
(before any promise exists) or a returned promise with its outcome. -/
inductive CallResult (α : Type) where
  | thrown (e : JSErr)
  | promise (out : α)

/-- Outcome of `validate`'s returned promise. -/
inductive AggOut where
  | ok
  | err (map : List (String × Rule))
  | hang

/-- A `Validator` instance of `src/validator-ts.ts` after construction:
`_rules` normalised to field -> rule list, `_transform` (defaulted to `{}`
by `const { _transform = {} } = this`), and the initial transform state of
the model. `_messageHook` is omitted: it is only a notification. -/
structure ValidatorTS (σ : Type) where
  rules : List (String × List Rule)
  transform : List (String × Tf σ) := []
  s0 : σ

/-- The transform chosen for a field: `_transform[field] || (value => value)`. -/
def tfOf {σ : Type} (V : ValidatorTS σ) (field : String) : Tf σ :=
  (V.transform.lookup field).getD idTf

/-- Core of `validateField` (ts): vacuous pass for an unconfigured field,
otherwise run the rules; the promise outcome. -/
def fieldOutCore_ts {σ : Type} (V : ValidatorTS σ) (field : String) (form : JSVal) : FieldOut :=
  match V.rules.lookup field with
  | none => .pass
  | some rules =>
    (runRules stepEval_ts (nextOf (tfOf V field) form field) (.str "")
      chainOrder_ts rules V.s0).2.2

/-- `validateField(field, form)` of `src/validator-ts.ts` (lines 150-209):
synchronous throw when `form` is not an object, otherwise a promise. -/
def validateField_ts {σ : Type} (V : ValidatorTS σ) (field : String) (form : JSVal) :
    CallResult FieldOut :=
  if isObject form then .promise (fieldOutCore_ts V field form)
  else .thrown (.badCall "Form parameter is not an object")

/-- `Promise.allSettled` aggregation of `validate` (ts lines 125-140, v2
lines 74-87): if any task never settles the join never settles; otherwise
the rejected tasks are collected into a field -> rule map (in task order)
and the promise rejects with it iff it is non-empty. -/
def aggregate (results : List (String × FieldOut)) : AggOut :=
  if results.any (fun p => match p.2 with | .hang => true | _ => false) then .hang
  else
    let errs := results.filterMap (fun p =>
      match p.2 with
      | .fail r => some (p.1, r)
      | _ => none)
    if errs.isEmpty then .ok else .err errs

/-- `validate(form)` of `src/validator-ts.ts` (lines 116-141): synchronous
throw when `form` is not an object; otherwise one `validateField` task per
configured field. Per the concurrency model (spec §5) the field tasks
share no mutable state, so each is run from the instance's initial
transform state. -/
def validate_ts {σ : Type} (V : ValidatorTS σ) (form : JSVal) : CallResult AggOut :=
  if isObject form then
    .promise (aggregate (V.rules.map (fun p => (p.1, fieldOutCore_ts V p.1 form))))
  else .thrown (.badCall "Form parameter is not an object")

/-- A `Validator` instance of `src/validator-2.0.0.js`: `_transform` is
`none` (that is, `undefined`) when the instance was constructed without a
`transform` option — the constructor only assigns it inside
`if (Validator.isObject(config))` from the destructured option. -/
structure ValidatorV2 (σ : Type) where
  rules : List (String × List Rule)
  transform : Option (List (String × Tf σ))
  s0 : σ

/-- Core of `validateField` (v2): the unconfigured-field guard runs before
the promise executor, but `_transform[field]` is read inside the async
executor, so with `_transform` undefined the TypeError is swallowed and
the promise never settles. -/
def fieldOutCore_v2 {σ : Type} (V : ValidatorV2 σ) (field : String) (form : JSVal) : FieldOut :=
  match V.rules.lookup field with
  | none => .pass
  | some rules =>
    match V.transform with
    | none => .hang
    | some tm =>
      (runRules stepEval_v2 (nextOf ((tm.lookup field).getD idTf) form field) .undefV
        chainOrder_v2 rules V.s0).2.2

/-- `validateField(field, form)` of `src/validator-2.0.0.js` (lines 96-144). -/
def validateField_v2 {σ : Type} (V : ValidatorV2 σ) (field : String) (form : JSVal) :
    CallResult FieldOut :=
  if isObject form then .promise (fieldOutCore_v2 V field form)
  else .thrown (.badCall "Form parameter is not an object")

/-- `validate(form)` of `src/validator-2.0.0.js` (lines 65-88). -/
def validate_v2 {σ : Type} (V : ValidatorV2 σ) (form : JSVal) : CallResult AggOut :=
  if isObject form then
    .promise (aggregate (V.rules.map (fun p => (p.1, fieldOutCore_v2 V p.1 form))))
  else .thrown (.badCall "Form parameter is not an object")

/-! General lemmas about the chain and rule runners. -/

theorem runSteps_trace_pre {σ : Type} (eval : StepName → Rule → JSVal → StepRes)
    (next : Next σ) (rule : Rule) (em : JSVal) :
    ∀ (steps : List StepName) (s : σ),
      ∃ t, (runSteps eval next rule em steps s).2.1 ++ t = steps := by
  intro steps
  induction steps with
  | nil => intro s; exact ⟨[], rfl⟩
  | cons st rest ih =>
    intro s
    rcases hn : next s with ⟨s', ev⟩
    cases ev with
    | error e => exact ⟨st :: rest, by simp [runSteps, hn]⟩
    | ok v =>
      cases hr : eval st rule v with
      | b pass =>
        cases pass with
        | false => exact ⟨rest, by simp [runSteps, hn, hr]⟩
        | true =>
          obtain ⟨t, ht⟩ := ih s'
          exact ⟨t, by simp [runSteps, hn, hr, ht]⟩
      | obj pass m =>
        cases pass with
        | false => exact ⟨rest, by simp [runSteps, hn, hr]⟩
        | true =>
          obtain ⟨t, ht⟩ := ih s'
          exact ⟨t, by simp [runSteps, hn, hr, ht]⟩
      | exn e => exact ⟨rest, by simp [runSteps, hn, hr]⟩

theorem runSteps_const_stop (eval : StepName → Rule → JSVal → StepRes)
    (rule : Rule) (em v : JSVal) (st : StepName)
    (hst : eval st rule v = .b false) :
    ∀ (pre post : List StepName),
      (∃ t, (runSteps eval (constNext v) rule em (pre ++ st :: post) ()).2.1 ++ t = pre ++ [st])
        ∧ (runSteps eval (constNext v) rule em (pre ++ st :: post) ()).2.2 ≠ .pass := by
  intro pre
  induction pre with
  | nil =>
    intro post
    constructor
    · exact ⟨[], by simp [runSteps, constNext, hst]⟩
    · simp [runSteps, constNext, hst]
  | cons p rest ih =>
    intro post
    cases hr : eval p rule v with
    | b pass =>
      cases pass with
      | false =>
        constructor
        · exact ⟨rest ++ [st], by simp [runSteps, constNext, hr]⟩
        · simp [runSteps, constNext, hr]
      | true =>
        obtain ⟨⟨t, ht⟩, hout⟩ := ih post
        constructor
        · exact ⟨t, by simp [runSteps, constNext, hr, ht]⟩
        · simpa [runSteps, constNext, hr] using hout
    | obj pass m =>
      cases pass with
      | false =>
        constructor
        · exact ⟨rest ++ [st], by simp [runSteps, constNext, hr]⟩
        · simp [runSteps, constNext, hr]
      | true =>
        obtain ⟨⟨t, ht⟩, hout⟩ := ih post
        constructor
        · exact ⟨t, by simp [runSteps, constNext, hr, ht]⟩
        · simpa [runSteps, constNext, hr] using hout
    | exn e =>
      constructor
      · exact ⟨rest ++ [st], by simp [runSteps, constNext, hr]⟩
      · simp [runSteps, constNext, hr]

theorem runRules_fail_decomp (eval : StepName → Rule → JSVal → StepRes)
    (next : Next Unit) (em : JSVal) (order : List StepName) :
    ∀ (rules : List Rule) (fr : Rule),
      (runRules eval next em order rules ()).2.2 = .fail fr →
      ∃ pre rule post emsg, rules = pre ++ rule :: post ∧
        (∀ ru ∈ pre, (runSteps eval next ru em order ()).2.2 = .pass) ∧
        (runSteps eval next rule em order ()).2.2 = .fail emsg ∧
        fr = { rule with message := if jsTruthy emsg then emsg else rule.message } := by
  intro rules
  induction rules with
  | nil => intro fr h; simp [runRules] at h
  | cons rule rest ih =>
    intro fr h
    rcases hs : runSteps eval next rule em order () with ⟨s', tr, out⟩
    cases s'
    cases out with
    | pass =>
      have h' : (runRules eval next em order rest ()).2.2 = .fail fr := by
        simpa [runRules, hs] using h
      obtain ⟨pre, rl, post, emsg, hdec, hpre, hfail, hfr⟩ := ih fr h'
      refine ⟨rule :: pre, rl, post, emsg, by simp [hdec], ?_, hfail, hfr⟩
      intro ru hru
      rcases List.mem_cons.mp hru with hru | hru
      · subst hru; rw [hs]
      · exact hpre ru hru
    | fail emsg =>
      refine ⟨[], rule, rest, emsg, by simp, by simp, by rw [hs], ?_⟩
      have : FieldOut.fail { rule with message := if jsTruthy emsg then emsg else rule.message }
          = .fail fr := by simpa [runRules, hs] using h
      cases this; rfl
    | exn e =>
      exfalso
      simp [runRules, hs] at h

theorem runRules_pass_of_all (eval : StepName → Rule → JSVal → StepRes)
    (next : Next Unit) (em : JSVal) (order : List StepName) :
    ∀ (rules : List Rule),
      (∀ ru ∈ rules, (runSteps eval next ru em order ()).2.2 = .pass) →
      (runRules eval next em order rules ()).2.2 = .pass := by
  intro rules
  induction rules with
  | nil => intro _; simp [runRules]
  | cons rule rest ih =>
    intro hall
    rcases hs : runSteps eval next rule em order () with ⟨s', tr, out⟩
    cases s'
    have hout : out = .pass := by
      have := hall rule (List.mem_cons_self rule rest)
      rw [hs] at this; exact this
    subst hout
    have := ih (fun ru hru => hall ru (List.mem_cons_of_mem rule hru))
    simpa [runRules, hs] using this

theorem runRules_stops_after_fail (eval : StepName → Rule → JSVal → StepRes)
    (next : Next Unit) (em : JSVal) (order : List StepName) :
    ∀ (pre : List Rule) (rule : Rule) (post : List Rule),
      (∀ ru ∈ pre, (runSteps eval next ru em order ()).2.2 = .pass) →
      (runSteps eval next rule em order ()).2.2 ≠ .pass →
      (runRules eval next em order (pre ++ rule :: post) ()).2.1
        = pre.map (fun ru => (runSteps eval next ru em order ()).2.1)
          ++ [(runSteps eval next rule em order ()).2.1] := by
  intro pre
  induction pre with
  | nil =>
    intro rule post _ hfail
    rcases hs : runSteps eval next rule em order () with ⟨s', tr, out⟩
    cases s'
    cases out with
    | pass => exact absurd (by rw [hs]) hfail
    | fail emsg => simp [runRules, hs]
    | exn e => simp [runRules, hs]
  | cons p rest ih =>
    intro rule post hpre hfail
    rcases hs : runSteps eval next p em order () with ⟨s', tr, out⟩
    cases s'
    have hout : out = .pass := by
      have := hpre p (List.mem_cons_self p rest)
      rw [hs] at this; exact this
    subst hout
    have := ih rule post (fun ru hru => hpre ru (List.mem_cons_of_mem p hru)) hfail
    simp [runRules, hs, this]

theorem aggregate_ok_iff (results : List (String × FieldOut))
    (hnh : ∀ p ∈ results, p.2 ≠ FieldOut.hang) :
    aggregate results = .ok ↔ ∀ p ∈ results, p.2 = .pass := by
  have hany : results.any (fun p => match p.2 with | .hang => true | _ => false) = false := by
    rw [List.any_eq_false]
    intro p hp
    have := hnh p hp
    cases h2 : p.2 <;> simp_all
  rw [aggregate, hany]
  simp only [Bool.false_eq_true, if_false]
  constructor
  · intro h p hp
    have hemp : (results.filterMap (fun p => match p.2 with
        | FieldOut.fail r => some (p.1, r) | _ => none)).isEmpty = true := by
      by_contra hne
      rw [if_neg (by simpa using hne)] at h
      cases h
    rw [List.isEmpty_iff, List.filterMap_eq_nil_iff] at hemp
    have := hemp p hp
    have hh := hnh p hp
    cases h2 : p.2 <;> simp_all
  · intro h
    have hemp : (results.filterMap (fun p => match p.2 with
        | FieldOut.fail r => some (p.1, r) | _ => none)) = [] := by
      rw [List.filterMap_eq_nil_iff]
      intro p hp
      rw [h p hp]
    simp [hemp]

theorem aggregate_err_mem (results : List (String × FieldOut)) (m : List (String × Rule))
    (h : aggregate results = .err m) :
    ∀ f r, ((f, r) ∈ m ↔ (f, FieldOut.fail r) ∈ results) := by
  intro f r
  rw [aggregate] at h
  by_cases hany : results.any (fun p => match p.2 with | .hang => true | _ => false) = true
  · rw [if_pos hany] at h; cases h
  · rw [if_neg hany] at h
    by_cases hemp : (results.filterMap (fun p => match p.2 with
        | FieldOut.fail r => some (p.1, r) | _ => none)).isEmpty = true
    · rw [if_pos hemp] at h; cases h
    · rw [if_neg hemp] at h
      cases h
      rw [List.mem_filterMap]
      constructor
      · rintro ⟨p, hp, hpick⟩
        have : p = (f, FieldOut.fail r) := by
          rcases p with ⟨pf, po⟩
          cases po <;> simp_all
        exact this ▸ hp
      · intro hmem
        exact ⟨(f, .fail r), hmem, rfl⟩

theorem aggregate_err_keys (results : List (String × FieldOut)) (m : List (String × Rule))
    (h : aggregate results = .err m) :
    List.Sublist (m.map Prod.fst) (results.map Prod.fst) := by
  rw [aggregate] at h
  by_cases hany : results.any (fun p => match p.2 with | .hang => true | _ => false) = true
  · rw [if_pos hany] at h; cases h
  · rw [if_neg hany] at h
    by_cases hemp : (results.filterMap (fun p => match p.2 with
        | FieldOut.fail r => some (p.1, r) | _ => none)).isEmpty = true
    · rw [if_pos hemp] at h; cases h
    · rw [if_neg hemp] at h
      cases h
      clear hany hemp
      induction results with
      | nil => simp
      | cons p rest ih =>
        rcases p with ⟨pf, po⟩
        cases po with
        | pass => simpa using List.Sublist.cons pf ih
        | hang => simpa using List.Sublist.cons pf ih
        | fail r => simpa using List.Sublist.cons₂ pf ih

theorem runSteps_trace_cons (eval : StepName → Rule → JSVal → StepRes) (v : JSVal)
    (rule : Rule) (em : JSVal) (st : StepName) (rest : List StepName) :
    (runSteps eval (constNext v) rule em (st :: rest) ()).2.1
      = match eval st rule v with
        | .b true => st :: (runSteps eval (constNext v) rule em rest ()).2.1
        | .obj true _ => st :: (runSteps eval (constNext v) rule em rest ()).2.1
        | _ => [st] := by
  rcases h : eval st rule v with pass | ⟨pass, m⟩ | e
  · cases pass <;> simp only [runSteps, constNext, h]
  · cases pass <;> simp only [runSteps, constNext, h]
  · simp only [runSteps, constNext, h]

theorem runSteps_out_cons (eval : StepName → Rule → JSVal → StepRes) (v : JSVal)
    (rule : Rule) (em : JSVal) (st : StepName) (rest : List StepName) :
    (runSteps eval (constNext v) rule em (st :: rest) ()).2.2
      = match eval st rule v with
        | .b true => (runSteps eval (constNext v) rule em rest ()).2.2
        | .obj true _ => (runSteps eval (constNext v) rule em rest ()).2.2
        | .b false => .fail em
        | .obj false m => .fail m
        | .exn e => .exn e := by
  rcases h : eval st rule v with pass | ⟨pass, m⟩ | e
  · cases pass <;> simp only [runSteps, constNext, h]
  · cases pass <;> simp only [runSteps, constNext, h]
  · simp only [runSteps, constNext, h]

/-! Claim theorems. -/

/-- C2 (amended): in `src/validator-ts.ts` the chain checks run in the order
required, type, pattern, maxlength, minlength, enum, custom validator, and
every execution trace is a prefix of that order; in
`src/validator-2.0.0.js` the custom validator instead runs fourth, before
the length and enum checks, and every trace is a prefix of that order. -/
theorem c2_chain_order_amended :
    chainOrder_ts = [.required, .type, .pattern, .maxlen, .minlen, .enum, .validator] ∧
    chainOrder_v2 = [.required, .type, .pattern, .validator, .maxlen, .minlen, .enum] ∧
    (∀ (σ : Type) (next : Next σ) (rule : Rule) (em : JSVal) (s : σ),
      ∃ t, (runSteps stepEval_ts next rule em chainOrder_ts s).2.1 ++ t = chainOrder_ts) ∧
    (∀ (σ : Type) (next : Next σ) (rule : Rule) (em : JSVal) (s : σ),
      ∃ t, (runSteps stepEval_v2 next rule em chainOrder_v2 s).2.1 ++ t = chainOrder_v2) :=
  ⟨rfl, rfl,
    fun _ next rule em s => runSteps_trace_pre stepEval_ts next rule em chainOrder_ts s,
    fun _ next rule em s => runSteps_trace_pre stepEval_v2 next rule em chainOrder_v2 s⟩

/-- A rule whose maxlength check fails on the value "ab" and whose custom
validator fails outright. -/
def c2Rule : Rule :=
  { maxlength := .num (.val 1), validator := some (.fn fun _ => .ret (.bool false)) }

/-- C2 (counterexample): in `src/validator-2.0.0.js`, on value "ab" with
`c2Rule`, the maxlength check fails, yet the executed chain runs the
custom validator directly after pattern — the length and enum checks do
not run before the validator as the claim states. -/
theorem c2_counterexample :
    stepEval_v2 .maxlen c2Rule (.str "ab") = .b false ∧
    (runSteps stepEval_v2 (constNext (.str "ab")) c2Rule .undefV chainOrder_v2 ()).2.1
      = [.required, .type, .pattern, .validator] :=
  ⟨rfl, rfl⟩

/-- C3 (amended): in `src/validator-ts.ts` every chain check other than
required passes immediately on an empty value (the empty string, null or
undefined). In `validator-2.0.0.js`/`validator-1.0.0.js` the other checks
do not test for emptiness and can fail on an empty value. -/
theorem c3_empty_skip_amended :
    ∀ (rule : Rule) (v : JSVal) (st : StepName),
      isEmpty v = true → st ≠ .required →
      stepEval_ts st rule v = .b true := by
  intro rule v st he hst
  cases st with
  | required => exact absurd rfl hst
  | type => simp [stepEval_ts, he]
  | pattern => simp [stepEval_ts, he]
  | maxlen => simp [stepEval_ts, he]
  | minlen => simp [stepEval_ts, he]
  | enum => simp [stepEval_ts, he]
  | validator => simp [stepEval_ts, he]

/-- Witness for C3's amended theorem at a concrete input. -/
theorem c3_witness :
    isEmpty (.str "") = true ∧ StepName.pattern ≠ StepName.required ∧
    stepEval_ts .pattern { pattern := some (.re fun _ => false) } (.str "") = .b true :=
  ⟨rfl, by decide,
    c3_empty_skip_amended { pattern := some (.re fun _ => false) } (.str "") .pattern rfl
      (by decide)⟩

/-- A rule demanding type number. -/
def c3Rule : Rule := { type := .str "number" }

/-- C3 (counterexample): in `src/validator-2.0.0.js` the type check fails on
the empty string (an empty value) for a rule with `type: 'number'` — it is
not skipped, so checks other than required can fail on an empty value. -/
theorem c3_counterexample :
    isEmpty (.str "") = true ∧ stepEval_v2 .type c3Rule (.str "") = .b false :=
  ⟨rfl, rfl⟩

/-- An instance with one required field, used for claim C5. -/
def v5ts : ValidatorTS Unit := { rules := [("name", [{ required := .bool true }])], s0 := () }

/-- C5 (counterexample): `isObject(null)` is true (typeof null is 'object'),
so `validate(null)` and `validateField('name', null)` do not throw: they
return promises — which here never settle, because reading
`null[field]` throws inside the async executor. -/
theorem c5_counterexample :
    isObject .null = true ∧
    validate_ts v5ts .null = .promise .hang ∧
    validateField_ts v5ts "name" .null = .promise .hang :=
  ⟨rfl, rfl, rfl⟩

/-- C5 (amended): `validate` and `validateField` throw synchronously
(never via the promise) whenever `data` fails `isObject` — which covers
arrays and all primitives — but null passes the guard (typeof null is
'object') and yields a promise instead of a synchronous throw. -/
theorem c5_guard_amended :
    (∀ (σ : Type) (V : ValidatorTS σ) (field : String) (form : JSVal),
      isObject form = false →
      validate_ts V form = .thrown (.badCall "Form parameter is not an object") ∧
      validateField_ts V field form = .thrown (.badCall "Form parameter is not an object")) ∧
    isObject .null = true ∧
    (∀ (id : Nat) (es : List JSVal), isObject (.arr id es) = false) ∧
    (∀ (s : String), isObject (.str s) = false) ∧
    (∀ (n : JSNum), isObject (.num n) = false) ∧
    (∀ (b : Bool), isObject (.bool b) = false) ∧
    isObject .undefV = false := by
  refine ⟨?_, rfl, fun id es => rfl, fun s => rfl, fun n => rfl, fun b => rfl, rfl⟩
  intro σ V field form h
  constructor <;> simp [validate_ts, validateField_ts, h]

/-- Witness for C5's amended theorem at a concrete input. -/
theorem c5_witness :
    isObject (.str "x") = false ∧
    (validate_ts v5ts (.str "x") = .thrown (.badCall "Form parameter is not an object") ∧
     validateField_ts v5ts "name" (.str "x")
       = .thrown (.badCall "Form parameter is not an object")) :=
  ⟨rfl, c5_guard_amended.1 Unit v5ts "name" (.str "x") rfl⟩

/-- C6 (confirmed): for a rule with truthy `required`, the required check
fails exactly on an empty transformed value (empty string, null, or
undefined — the absent-field read); on an empty value the chain stops at
required and `validateField` rejects with the rule (its `message` resolved
to its own message), and on a non-empty value required passes and the
chain proceeds to the subsequent checks. -/
theorem c6_required_check :
    ∀ (rule : Rule) (v : JSVal),
      jsTruthy rule.required = true →
      ((isEmpty v = true →
          stepEval_ts .required rule v = .b false ∧
          (runSteps stepEval_ts (constNext v) rule (.str "") chainOrder_ts ()).2.1
            = [.required] ∧
          (runRules stepEval_ts (constNext v) (.str "") chainOrder_ts [rule] ()).2.2
            = .fail rule) ∧
       (isEmpty v = false →
          stepEval_ts .required rule v = .b true ∧
          ∃ rest, (runSteps stepEval_ts (constNext v) rule (.str "") chainOrder_ts ()).2.1
            = .required :: .type :: rest)) := by
  intro rule v hreq
  constructor
  · intro he
    have h1 : stepEval_ts .required rule v = .b false := by simp [stepEval_ts, hreq, he]
    have h2 : runSteps stepEval_ts (constNext v) rule (.str "") chainOrder_ts ()
        = ((), [.required], .fail (.str "")) := by
      simp [chainOrder_ts, runSteps, constNext, h1]
    refine ⟨h1, by rw [h2], ?_⟩
    simp [runRules, h2, jsTruthy]
  · intro he
    have h1 : stepEval_ts .required rule v = .b true := by simp [stepEval_ts, hreq, he]
    refine ⟨h1, ?_⟩
    have e1 := runSteps_trace_cons stepEval_ts v rule (.str "") .required
      [.type, .pattern, .maxlen, .minlen, .enum, .validator]
    rw [h1] at e1
    have e2 := runSteps_trace_cons stepEval_ts v rule (.str "") .type
      [.pattern, .maxlen, .minlen, .enum, .validator]
    cases h2 : stepEval_ts .type rule v with
    | b pass =>
      cases pass with
      | true =>
        rw [h2] at e2
        exact ⟨_, by rw [show chainOrder_ts = .required :: .type ::
          [.pattern, .maxlen, .minlen, .enum, .validator] from rfl, e1, e2]⟩
      | false =>
        rw [h2] at e2
        exact ⟨[], by rw [show chainOrder_ts = .required :: .type ::
          [.pattern, .maxlen, .minlen, .enum, .validator] from rfl, e1, e2]⟩
    | obj pass m =>
      cases pass with
      | true =>
        rw [h2] at e2
        exact ⟨_, by rw [show chainOrder_ts = .required :: .type ::
          [.pattern, .maxlen, .minlen, .enum, .validator] from rfl, e1, e2]⟩
      | false =>
        rw [h2] at e2
        exact ⟨[], by rw [show chainOrder_ts = .required :: .type ::
          [.pattern, .maxlen, .minlen, .enum, .validator] from rfl, e1, e2]⟩
    | exn e =>
      rw [h2] at e2
      exact ⟨[], by rw [show chainOrder_ts = .required :: .type ::
        [.pattern, .maxlen, .minlen, .enum, .validator] from rfl, e1, e2]⟩

/-- A basic required rule. -/
def c6Rule : Rule := { required := .bool true, message := .str "req" }

/-- Witness for C6 at a concrete input (absent field value, undefined). -/
theorem c6_witness :
    jsTruthy c6Rule.required = true ∧
    ((isEmpty JSVal.undefV = true →
        stepEval_ts .required c6Rule .undefV = .b false ∧
        (runSteps stepEval_ts (constNext .undefV) c6Rule (.str "") chainOrder_ts ()).2.1
          = [.required] ∧
        (runRules stepEval_ts (constNext .undefV) (.str "") chainOrder_ts [c6Rule] ()).2.2
          = .fail c6Rule) ∧
     (isEmpty JSVal.undefV = false →
        stepEval_ts .required c6Rule .undefV = .b true ∧
        ∃ rest, (runSteps stepEval_ts (constNext .undefV) c6Rule (.str "") chainOrder_ts ()).2.1
          = .required :: .type :: rest)) :=
  ⟨rfl, c6_required_check c6Rule .undefV rfl⟩

/-- C7 (amended, for `src/validator-ts.ts` where maxlength precedes the
custom validator): if the maxlength check fails on the (fixed) value, the
evaluated rule's chain executes only checks from
{required, type, pattern, maxlen} — the custom validator (and minlength
and enum) is never invoked — and no later rule for the field is evaluated:
the rule trace list ends with this rule. -/
theorem c7_short_circuit_amended :
    ∀ (v : JSVal) (pre post : List Rule) (rule : Rule),
      (∀ ru ∈ pre, (runSteps stepEval_ts (constNext v) ru (.str "") chainOrder_ts ()).2.2 = .pass) →
      stepEval_ts .maxlen rule v = .b false →
      (runRules stepEval_ts (constNext v) (.str "") chainOrder_ts
          (pre ++ rule :: post) ()).2.1.length = pre.length + 1 ∧
      (∀ st ∈ (runSteps stepEval_ts (constNext v) rule (.str "") chainOrder_ts ()).2.1,
          st = .required ∨ st = .type ∨ st = .pattern ∨ st = .maxlen) := by
  intro v pre post rule hpre hmax
  have horder : chainOrder_ts
      = [StepName.required, .type, .pattern] ++ .maxlen :: [.minlen, .enum, .validator] := rfl
  obtain ⟨⟨t, ht⟩, hnp⟩ := runSteps_const_stop stepEval_ts rule (.str "") v .maxlen hmax
      [.required, .type, .pattern] [.minlen, .enum, .validator]
  constructor
  · have hlist := runRules_stops_after_fail stepEval_ts (constNext v) (.str "") chainOrder_ts
      pre rule post hpre (by rw [horder]; exact hnp)
    rw [hlist]; simp
  · intro st hst
    rw [horder] at hst
    have h5 : st ∈ (runSteps stepEval_ts (constNext v) rule (.str "")
        ([StepName.required, .type, .pattern] ++ .maxlen :: [.minlen, .enum, .validator]) ()).2.1
          ++ t := List.mem_append_left t hst
    rw [ht] at h5
    simpa using h5

/-- A rule whose maxlength is exceeded by "abcd" and which carries a custom
validator that would fail if it were ever invoked. -/
def c7wRule : Rule :=
  { maxlength := .num (.val 2), validator := some (.fn fun _ => .ret (.bool false)) }

/-- Witness for C7's amended theorem at a concrete input. -/
theorem c7_witness :
    (∀ ru ∈ ([] : List Rule),
      (runSteps stepEval_ts (constNext (.str "abcd")) ru (.str "") chainOrder_ts ()).2.2
        = .pass) ∧
    stepEval_ts .maxlen c7wRule (.str "abcd") = .b false ∧
    ((runRules stepEval_ts (constNext (.str "abcd")) (.str "") chainOrder_ts
        ([] ++ c7wRule :: [c6Rule]) ()).2.1.length = ([] : List Rule).length + 1 ∧
     (∀ st ∈ (runSteps stepEval_ts (constNext (.str "abcd")) c7wRule (.str "")
        chainOrder_ts ()).2.1,
        st = .required ∨ st = .type ∨ st = .pattern ∨ st = .maxlen)) :=
  ⟨fun ru h => absurd h (List.not_mem_nil ru), rfl,
    c7_short_circuit_amended (.str "abcd") [] [c6Rule] c7wRule
      (fun ru h => absurd h (List.not_mem_nil ru)) rfl⟩

/-- A rule with a failing maxlength and a passing custom validator. -/
def c7Rule : Rule :=
  { maxlength := .num (.val 1), validator := some (.fn fun _ => .ret (.bool true)) }

/-- C7 (counterexample): in `src/validator-2.0.0.js`, on the value "ab" the
maxlength check of `c7Rule` fails, yet the custom validator is invoked
(it appears in the executed trace, before maxlen) — contradicting the
claim that the validator is never invoked when maxlength fails. -/
theorem c7_counterexample :
    stepEval_v2 .maxlen c7Rule (.str "ab") = .b false ∧
    StepName.validator
      ∈ (runSteps stepEval_v2 (constNext (.str "ab")) c7Rule .undefV chainOrder_v2 ()).2.1 ∧
    (runRules stepEval_v2 (constNext (.str "ab")) .undefV chainOrder_v2 [c7Rule] ()).2.2
      = .fail c7Rule := by
  refine ⟨rfl, ?_, rfl⟩
  rw [show (runSteps stepEval_v2 (constNext (.str "ab")) c7Rule .undefV chainOrder_v2 ()).2.1
    = [.required, .type, .pattern, .validator, .maxlen] from rfl]
  decide

theorem firstDigitAux_le_nine :
    ∀ (fuel n : ℕ), n ≤ fuel → firstDigitAux fuel n ≤ 9 := by
  intro fuel
  induction fuel with
  | zero =>
    intro n hn
    have h0 : n = 0 := Nat.le_zero.mp hn
    subst h0
    simp [firstDigitAux]
  | succ f ih =>
    intro n hn
    cases n with
    | zero => simp [firstDigitAux]
    | succ m =>
      by_cases h10 : m + 1 < 10
      · simp [firstDigitAux, h10]
        omega
      · simp [firstDigitAux, h10]
        apply ih
        have hd : (m + 1) / 10 < m + 1 := Nat.div_lt_self (Nat.succ_pos m) (by norm_num)
        omega

theorem firstDigitNat_le_nine (n : ℕ) : firstDigitNat n ≤ 9 :=
  firstDigitAux_le_nine n n le_rfl

/-- C8 (amended): `isInteger` returns true iff the argument is a number,
excluding NaN, whose truncation equals itself and whose decimal rendering
is fixed (non-exponential). Outside the fixed window the rendering defeats
`parseInt`: the infinities render as "Infinity" (parsing to NaN), and a
number of magnitude at least 1e21 renders exponentially, so `parseInt`
reads only the leading digit and `isInteger(1e21)` is false although
truncation fixes 1e21. `isFloat` in `src/validator-ts.ts` is
`isNumber && !isInteger` and is total; but in `validator-1.0.0.js` and
`validator-2.0.0.js` `isFloat` calls the undefined `isTnteger` and throws
a TypeError on every non-NaN number, returning false on everything else. -/
theorem c8_numeric_amended :
    (∀ v, isInteger_ts v = (specInteger v && jsNumFixed v)) ∧
    (∀ v, isFloat_ts v = (isNumber v && !(isInteger_ts v))) ∧
    (∀ v, isFloat_v2 v = if isNumber v then .error .typeError else .ok false) := by
  refine ⟨?_, fun v => rfl, fun v => rfl⟩
  intro v
  cases v with
  | num n =>
    cases n with
    | nan => rfl
    | posInf =>
      simp [isInteger_ts, specInteger, isNumber, jsNumFixed, jsParseIntNum, jsMathTrunc,
        jsNumEq]
    | negInf =>
      simp [isInteger_ts, specInteger, isNumber, jsNumFixed, jsParseIntNum, jsMathTrunc,
        jsNumEq]
    | val q =>
      by_cases hf : jsFixedForm q = true
      · simp [isInteger_ts, specInteger, isNumber, jsNumFixed, jsParseIntNum, jsMathTrunc,
          jsNumEq, hf]
      · have hf' : jsFixedForm q = false := Bool.eq_false_iff.mpr hf
        have hstep : isInteger_ts (.num (.val q))
            = decide (((jsLeadingDigit q : ℤ) : ℚ) = q) := by
          simp [isInteger_ts, isNumber, jsParseIntNum, hf', jsNumEq]
        have hrhs : (specInteger (.num (.val q)) && jsNumFixed (.num (.val q))) = false := by
          simp [jsNumFixed, hf']
        rw [hstep, hrhs, decide_eq_false_iff_not]
        intro hEq
        have hden : q.den = 1 := by rw [← hEq]; exact Rat.den_intCast _
        have hnum : q.num = jsLeadingDigit q := by
          have h := congrArg Rat.num hEq
          rw [Rat.num_intCast] at h
          exact h.symm
        have hforms := hf'
        unfold jsFixedForm at hforms
        rw [Bool.or_eq_false_iff] at hforms
        obtain ⟨h01, h02⟩ := hforms
        have hn0 : q.num ≠ 0 := by simpa using h01
        have ha : 1 ≤ q.num.natAbs := Int.natAbs_pos.mpr hn0
        have habs : q.num.natAbs = jsLeadingDigitNat q := by
          conv_lhs => rw [hnum]
          unfold jsLeadingDigit
          by_cases hs : q.num < 0
          · simp [hs]
          · simp [hs]
        have hdigit : jsLeadingDigitNat q = firstDigitNat q.num.natAbs := by
          unfold jsLeadingDigitNat
          rw [hden, if_pos ha, Nat.div_one]
        have h9 : q.num.natAbs ≤ 9 := by
          rw [habs, hdigit]; exact firstDigitNat_le_nine _
        rw [Bool.and_eq_false_iff] at h02
        have hp6 : (10 : ℕ) ^ 6 = 1000000 := by norm_num
        have hp21 : (10 : ℕ) ^ 21 = 1000000000000000000000 := by norm_num
        rcases h02 with h | h
        · have hlt : ¬(q.den ≤ 10 ^ 6 * q.num.natAbs) := by simpa using h
          rw [hden, hp6] at hlt
          omega
        · have hge : ¬(q.num.natAbs < 10 ^ 21 * q.den) := by simpa using h
          rw [hden, hp21] at hge
          omega
  | undefV => rfl
  | null => rfl
  | bool b => rfl
  | str s => rfl
  | arr id es => rfl
  | obj id fs => rfl
  | func id => rfl
  | date id b => rfl
  | regexpRef id => rfl

/-- C8 (counterexample): Infinity is a non-NaN number fixed by truncation,
so the claim says `isInteger(Infinity)` is true, but the code returns
false; `1e21` likewise is a non-NaN number fixed by truncation, yet its
exponential rendering makes `parseInt` read 1 and `isInteger(1e21)` is
false; and `isFloat(3/2)` throws a TypeError in `validator-2.0.0.js`
(undefined `isTnteger`) instead of returning a boolean, while the ts
version returns true. -/
theorem c8_counterexample :
    specInteger (.num .posInf) = true ∧
    isInteger_ts (.num .posInf) = false ∧
    isNumber (.num .posInf) = true ∧
    specInteger (.num (.val 1000000000000000000000)) = true ∧
    isInteger_ts (.num (.val 1000000000000000000000)) = false ∧
    isFloat_v2 (.num (.val (mkRat 3 2))) = .error .typeError ∧
    isFloat_ts (.num (.val (mkRat 3 2))) = true := by
  refine ⟨rfl, rfl, rfl, by decide, by decide, rfl, by decide⟩

/-- C9 (confirmed): a `validator-2.0.0.js` instance whose `_transform` is
undefined (constructed without a transform option) never settles
`validateField` for any field with configured rules — `_transform[field]`
throws inside the async executor and the rejection is swallowed — and
`validate` on such an instance (with at least one configured field)
likewise never settles. -/
theorem c9_missing_transform_hangs :
    (∀ (σ : Type) (V : ValidatorV2 σ) (field : String) (rs : List Rule) (form : JSVal),
      V.transform = none → V.rules.lookup field = some rs → isObject form = true →
      validateField_v2 V field form = .promise .hang) ∧
    (∀ (σ : Type) (V : ValidatorV2 σ) (form : JSVal),
      V.transform = none → V.rules ≠ [] → isObject form = true →
      validate_v2 V form = .promise .hang) := by
  constructor
  · intro σ V field rs form ht hr hf
    simp [validateField_v2, hf, fieldOutCore_v2, hr, ht]
  · intro σ V form ht hne hf
    rcases hrr : V.rules with _ | ⟨p, rest⟩
    · exact absurd hrr hne
    · have hlook : V.rules.lookup p.1 = some p.2 := by
        rw [hrr]; rcases p with ⟨f, rs⟩; simp [List.lookup]
      have hout : fieldOutCore_v2 V p.1 form = .hang := by
        simp [fieldOutCore_v2, hlook, ht]
      simp [validate_v2, hf, hrr, aggregate, hout]

/-- A rule whose custom validator rejects its returned promise with the
payload `e` for every input, carrying the static message `msg`. -/
def rejRule (e msg : JSVal) : Rule :=
  { validator := some (.fn fun _ => .promiseErr e), message := msg }

/-- Same, but the validator throws `e` synchronously. -/
def thrRule (e msg : JSVal) : Rule :=
  { validator := some (.fn fun _ => .throwE e), message := msg }

/-- Outcome of `validateField`'s rule loop on the single rule
`rejRule e msg` for an (already transformed) value `v`. -/
def rejOut (e msg v : JSVal) : FieldOut :=
  (runRules stepEval_ts (constNext v) (.str "") chainOrder_ts [rejRule e msg] ()).2.2

theorem rejOut_spec (e msg v : JSVal) (hne : isEmpty v = false) :
    (∀ ex, catchMsg_ts e = .exn ex → rejOut e msg v = .hang) ∧
    (∀ m, catchMsg_ts e = .obj false m →
      rejOut e msg v
        = .fail { rejRule e msg with message := if jsTruthy m then m else msg }) := by
  have h1 : stepEval_ts .required (rejRule e msg) v = .b true := rfl
  have h2 : stepEval_ts .type (rejRule e msg) v = .b true := by
    simp [stepEval_ts, rejRule, hne]
  have h3 : stepEval_ts .pattern (rejRule e msg) v = .b true := by
    simp [stepEval_ts, rejRule, hne]
  have h4 : stepEval_ts .maxlen (rejRule e msg) v = .b true := by
    simp [stepEval_ts, rejRule, hne, jsTruthy]
  have h5 : stepEval_ts .minlen (rejRule e msg) v = .b true := by
    simp [stepEval_ts, rejRule, hne, jsTruthy]
  have h6 : stepEval_ts .enum (rejRule e msg) v = .b true := by
    simp [stepEval_ts, rejRule, hne]
  have h7 : stepEval_ts .validator (rejRule e msg) v = catchMsg_ts e := by
    simp [stepEval_ts, rejRule, hne, customBody]
  have hout : (runSteps stepEval_ts (constNext v) (rejRule e msg) (.str "")
      chainOrder_ts ()).2.2
      = match catchMsg_ts e with
        | .b true => .pass
        | .obj true _ => .pass
        | .b false => .fail (.str "")
        | .obj false m => .fail m
        | .exn ex => .exn ex := by
    rw [show chainOrder_ts = .required :: .type :: .pattern :: .maxlen :: .minlen :: .enum
      :: [StepName.validator] from rfl]
    simp only [runSteps_out_cons, h1, h2, h3, h4, h5, h6, h7]
    cases catchMsg_ts e with
    | b pass => cases pass <;> simp [runSteps]
    | obj pass m => cases pass <;> simp [runSteps]
    | exn ex => rfl
  constructor
  · intro ex hc
    rcases hs : runSteps stepEval_ts (constNext v) (rejRule e msg) (.str "")
        chainOrder_ts () with ⟨s', tr, out⟩
    cases s'
    have : out = .exn ex := by
      have h8 := hout
      rw [hs, hc] at h8
      exact h8
    subst this
    simp [rejOut, runRules, hs]
  · intro m hc
    rcases hs : runSteps stepEval_ts (constNext v) (rejRule e msg) (.str "")
        chainOrder_ts () with ⟨s', tr, out⟩
    cases s'
    have : out = .fail m := by
      have h8 := hout
      rw [hs, hc] at h8
      exact h8
    subst this
    simp only [rejOut, runRules, hs]
    rfl

/-- C4 (amended): a failing custom validator that rejects or throws with a
non-empty string overrides the rule's static message with that string;
one that rejects or throws with a plain object whose `message` property is
truthy overrides with that property. In every other settling case —
empty-string payload, object payload with falsy or absent `message`,
array/function payload, or a payload that is neither a string nor has
typeof 'object' (undefined, boolean, number) — the rule's own `message` is
reported. A null payload, however, has typeof 'object' and reading
`null.message` throws, so `validateField` never settles. A thrown payload
behaves exactly as a rejected one. -/
theorem c4_message_resolution_amended :
    ∀ (msg v : JSVal), isEmpty v = false →
      (∀ s, s ≠ "" →
        rejOut (.str s) msg v = .fail { rejRule (.str s) msg with message := .str s }) ∧
      (rejOut (.str "") msg v = .fail { rejRule (.str "") msg with message := msg }) ∧
      (∀ id flds, jsTruthy ((flds.lookup "message").getD .undefV) = true →
        rejOut (.obj id flds) msg v
          = .fail { rejRule (.obj id flds) msg with
              message := (flds.lookup "message").getD .undefV }) ∧
      (∀ id flds, jsTruthy ((flds.lookup "message").getD .undefV) = false →
        rejOut (.obj id flds) msg v
          = .fail { rejRule (.obj id flds) msg with message := msg }) ∧
      (rejOut .null msg v = .hang) ∧
      (rejOut .undefV msg v = .fail { rejRule .undefV msg with message := msg }) ∧
      (∀ b, rejOut (.bool b) msg v = .fail { rejRule (.bool b) msg with message := msg }) ∧
      (∀ n, rejOut (.num n) msg v = .fail { rejRule (.num n) msg with message := msg }) ∧
      (∀ id, rejOut (.func id) msg v
        = .fail { rejRule (.func id) msg with message := msg }) ∧
      (∀ id es, rejOut (.arr id es) msg v
        = .fail { rejRule (.arr id es) msg with message := msg }) ∧
      (∀ e, stepEval_ts .validator (thrRule e msg) v
        = stepEval_ts .validator (rejRule e msg) v) := by
  intro msg v hne
  refine ⟨?_, ?_, ?_, ?_, ?_, ?_, ?_, ?_, ?_, ?_, ?_⟩
  · intro s hs
    have hc : catchMsg_ts (.str s) = .obj false (.str s) := rfl
    have := (rejOut_spec (.str s) msg v hne).2 (.str s) hc
    rw [this]
    have ht : jsTruthy (.str s) = true := by simp [jsTruthy, hs]
    rw [ht]
    rfl
  · have hc : catchMsg_ts (.str "") = .obj false (.str "") := rfl
    have := (rejOut_spec (.str "") msg v hne).2 (.str "") hc
    rw [this]
    rfl
  · intro id flds ht
    have hc : catchMsg_ts (.obj id flds) = .obj false ((flds.lookup "message").getD .undefV) :=
      rfl
    have := (rejOut_spec (.obj id flds) msg v hne).2 _ hc
    rw [this, ht]
    rfl
  · intro id flds ht
    have hc : catchMsg_ts (.obj id flds) = .obj false ((flds.lookup "message").getD .undefV) :=
      rfl
    have := (rejOut_spec (.obj id flds) msg v hne).2 _ hc
    rw [this, ht]
    rfl
  · exact (rejOut_spec .null msg v hne).1 .typeError rfl
  · have := (rejOut_spec .undefV msg v hne).2 (.str "") rfl
    rw [this]; rfl
  · intro b
    have := (rejOut_spec (.bool b) msg v hne).2 (.str "") rfl
    rw [this]; rfl
  · intro n
    have := (rejOut_spec (.num n) msg v hne).2 (.str "") rfl
    rw [this]; rfl
  · intro id
    have := (rejOut_spec (.func id) msg v hne).2 (.str "") rfl
    rw [this]; rfl
  · intro id es
    have := (rejOut_spec (.arr id es) msg v hne).2 .undefV rfl
    rw [this]; rfl
  · intro e
    simp [stepEval_ts, thrRule, rejRule, hne, customBody]

/-- Witness for C4's amended theorem: a validator rejecting with the plain
string "wrong" reports "wrong" instead of the static message. -/
theorem c4_witness :
    isEmpty (.str "x") = false ∧ "wrong" ≠ "" ∧
    rejOut (.str "wrong") (.str "static") (.str "x")
      = .fail { rejRule (.str "wrong") (.str "static") with message := .str "wrong" } :=
  ⟨rfl, by decide,
    (c4_message_resolution_amended (.str "static") (.str "x") rfl).1 "wrong" (by decide)⟩

/-- C4 (counterexample): the payload `{message: ""}` is an object carrying a
`message` property, but because the resolution is `errMsg || rule.message`
the reported rule keeps the static message "static" — the payload message
does not replace it, contradicting the claim as stated. -/
theorem c4_counterexample :
    ((([("message", JSVal.str "")] : List (String × JSVal)).lookup "message").getD .undefV
        = .str "") ∧
    rejOut (.obj 0 [("message", .str "")]) (.str "static") (.str "x")
      = .fail { rejRule (.obj 0 [("message", .str "")]) (.str "static") with
          message := .str "static" } ∧
    JSVal.str "static" ≠ JSVal.str "" := by
  refine ⟨rfl, rfl, ?_⟩
  intro h
  injection h with h'
  exact absurd h' (by decide)

/-- A one-field form `{ k: raw }` holding the raw field value. -/
def mkForm (raw : JSVal) : JSVal := .obj 0 [("k", raw)]

/-- A transform instrumented to record every argument it is invoked on,
behaving like the pure function `f` on values. -/
def recTf (f : JSVal → JSVal) : Tf (List JSVal) := fun s v => (s ++ [v], f v)

/-- A stateful transform: it yields "ok" on its first invocation and the
empty string afterwards. -/
def countTf : Tf Nat := fun s _ => (s + 1, if s == 0 then .str "ok" else .str "")

/-- A rule whose pattern rejects everything. -/
def c10Rule : Rule := { pattern := some (.re fun _ => false) }

theorem runSteps_recTf (eval : StepName → Rule → JSVal → StepRes) (f : JSVal → JSVal)
    (raw : JSVal) (rule : Rule) (em : JSVal) :
    ∀ (steps : List StepName) (s : List JSVal),
      (runSteps eval (nextOf (recTf f) (mkForm raw) "k") rule em steps s).1
        = s ++ List.replicate
            (runSteps eval (nextOf (recTf f) (mkForm raw) "k") rule em steps s).2.1.length raw ∧
      (runSteps eval (nextOf (recTf f) (mkForm raw) "k") rule em steps s).2.1
        = (runSteps eval (constNext (f raw)) rule em steps ()).2.1 ∧
      (runSteps eval (nextOf (recTf f) (mkForm raw) "k") rule em steps s).2.2
        = (runSteps eval (constNext (f raw)) rule em steps ()).2.2 := by
  intro steps
  induction steps with
  | nil => intro s; refine ⟨by simp [runSteps], rfl, rfl⟩
  | cons st rest ih =>
    intro s
    have hn : nextOf (recTf f) (mkForm raw) "k" s = (s ++ [raw], .ok (f raw)) := rfl
    have hc : constNext (f raw) () = ((), .ok (f raw)) := rfl
    cases hr : eval st rule (f raw) with
    | b pass =>
      cases pass with
      | true =>
        obtain ⟨ih1, ih2, ih3⟩ := ih (s ++ [raw])
        refine ⟨?_, ?_, ?_⟩
        · simp only [runSteps, hn, hc, hr]
          simp only [List.length_cons, List.replicate_succ]
          rw [ih1, ih2]
          simp [List.append_assoc]
        · simp only [runSteps, hn, hc, hr, ih2]
        · simp only [runSteps, hn, hc, hr, ih3]
      | false =>
        refine ⟨?_, ?_, ?_⟩ <;> simp [runSteps, hn, hc, hr]
    | obj pass m =>
      cases pass with
      | true =>
        obtain ⟨ih1, ih2, ih3⟩ := ih (s ++ [raw])
        refine ⟨?_, ?_, ?_⟩
        · simp only [runSteps, hn, hc, hr]
          simp only [List.length_cons, List.replicate_succ]
          rw [ih1, ih2]
          simp [List.append_assoc]
        · simp only [runSteps, hn, hc, hr, ih2]
        · simp only [runSteps, hn, hc, hr, ih3]
      | false =>
        refine ⟨?_, ?_, ?_⟩ <;> simp [runSteps, hn, hc, hr]
    | exn e =>
      refine ⟨?_, ?_, ?_⟩ <;> simp [runSteps, hn, hc, hr]

theorem runRules_recTf (eval : StepName → Rule → JSVal → StepRes) (f : JSVal → JSVal)
    (raw : JSVal) (em : JSVal) (order : List StepName) :
    ∀ (rules : List Rule) (s : List JSVal),
      (runRules eval (nextOf (recTf f) (mkForm raw) "k") em order rules s).1
        = s ++ List.replicate
            ((runRules eval (nextOf (recTf f) (mkForm raw) "k") em order rules s).2.1.foldr
              (fun tr n => tr.length + n) 0) raw ∧
      (runRules eval (nextOf (recTf f) (mkForm raw) "k") em order rules s).2.1
        = (runRules eval (constNext (f raw)) em order rules ()).2.1 ∧
      (runRules eval (nextOf (recTf f) (mkForm raw) "k") em order rules s).2.2
        = (runRules eval (constNext (f raw)) em order rules ()).2.2 := by
  intro rules
  induction rules with
  | nil => intro s; refine ⟨by simp [runRules], rfl, rfl⟩
  | cons rule rest ih =>
    intro s
    obtain ⟨hs1, hs2, hs3⟩ := runSteps_recTf eval f raw rule em order s
    rcases hA : runSteps eval (nextOf (recTf f) (mkForm raw) "k") rule em order s
      with ⟨sA, trA, outA⟩
    rcases hB : runSteps eval (constNext (f raw)) rule em order () with ⟨u, trB, outB⟩
    cases u
    rw [hA] at hs1 hs2 hs3
    rw [hB] at hs2 hs3
    simp only at hs1 hs2 hs3
    subst hs2
    cases outB with
    | pass =>
      subst hs3
      obtain ⟨ih1, ih2, ih3⟩ := ih sA
      refine ⟨?_, ?_, ?_⟩
      · simp only [runRules, hA, hB]
        rw [ih1, hs1, List.append_assoc, ← List.replicate_add]
        simp only [List.foldr_cons]
      · simp only [runRules, hA, hB, ih2]
      · simp only [runRules, hA, hB, ih3]
    | fail emsg =>
      subst hs3
      refine ⟨?_, ?_, ?_⟩
      · simp only [runRules, hA, hB]
        rw [hs1]
        simp
      · simp only [runRules, hA, hB]
      · simp only [runRules, hA, hB]
    | exn e =>
      subst hs3
      refine ⟨?_, ?_, ?_⟩
      · simp only [runRules, hA, hB]
        rw [hs1]
        simp
      · simp only [runRules, hA, hB]
      · simp only [runRules, hA, hB]

/-- C10 (confirmed): the transform is not applied once per field — it is
re-invoked for every executed chain step of every rule, each time on the
raw field value `form[field]`. The instrumented run records exactly one
invocation per executed step, always on the raw value, while behaving like
the pure function `f`; its trace and outcome coincide with those of the
"apply the transform once, then run the chain" model (spec §4.4), and for
a pure transform the two models agree. The second part exhibits a
stateful transform (first call "ok", later calls "") for which the
faithful per-step outcome (pass — the pattern check sees "" and skips)
differs from the apply-once outcome (the pattern rejects "ok"). -/
theorem c10_transform_per_step :
    (∀ (f : JSVal → JSVal) (raw : JSVal) (rules : List Rule),
      (runRules stepEval_ts (nextOf (recTf f) (mkForm raw) "k") (.str "")
          chainOrder_ts rules []).1
        = List.replicate
            ((runRules stepEval_ts (nextOf (recTf f) (mkForm raw) "k") (.str "")
              chainOrder_ts rules []).2.1.foldr (fun tr n => tr.length + n) 0) raw ∧
      (runRules stepEval_ts (nextOf (recTf f) (mkForm raw) "k") (.str "")
          chainOrder_ts rules []).2.2
        = (runRules stepEval_ts (constNext (f raw)) (.str "") chainOrder_ts rules ()).2.2) ∧
    (∀ (f : JSVal → JSVal) (raw : JSVal) (rules : List Rule),
      (runRules stepEval_ts (nextOf (pureTf f) (mkForm raw) "k") (.str "")
          chainOrder_ts rules ()).2.2
        = (runRules stepEval_ts (constNext (f raw)) (.str "") chainOrder_ts rules ()).2.2) ∧
    ((runRules stepEval_ts (nextOf countTf (mkForm (.str "raw")) "k") (.str "")
        chainOrder_ts [c10Rule] 0).2.2 = .pass ∧
     (countTf 0 (.str "raw")).2 = .str "ok" ∧
     (runRules stepEval_ts (constNext (.str "ok")) (.str "") chainOrder_ts [c10Rule] ()).2.2
        = .fail c10Rule) := by
  refine ⟨?_, ?_, rfl, rfl, rfl⟩
  · intro f raw rules
    obtain ⟨h1, _, h3⟩ := runRules_recTf stepEval_ts f raw (.str "") chainOrder_ts rules []
    exact ⟨by simpa using h1, h3⟩
  · intro f raw rules
    rfl

/-- C1 (confirmed): provided every configured field's evaluation settles
(spec §5 notes that a hanging custom validator blocks the aggregate join
indefinitely), `validate` on a guard-accepted form evaluates every
configured field, resolves iff no field fails, and otherwise rejects with
a map that relates fields to rules exactly as the per-field outcomes do —
each failing field appears, mapped to its first failing rule (with
resolved message), and with distinct configured fields the map has one
entry per failing field. -/
theorem c1_aggregate_complete :
    ∀ (V : ValidatorTS Unit) (form : JSVal),
      isObject form = true →
      (∀ p ∈ V.rules, fieldOutCore_ts V p.1 form ≠ .hang) →
      ((validate_ts V form = .promise .ok ↔
          ∀ p ∈ V.rules, fieldOutCore_ts V p.1 form = .pass) ∧
       (∀ m, validate_ts V form = .promise (.err m) →
          ((∀ f r, ((f, r) ∈ m ↔
              f ∈ V.rules.map Prod.fst ∧ fieldOutCore_ts V f form = .fail r)) ∧
           ((V.rules.map Prod.fst).Nodup → (m.map Prod.fst).Nodup))) ∧
       (∀ f rules r, V.rules.lookup f = some rules →
          fieldOutCore_ts V f form = .fail r →
          ∃ pre rule post emsg, rules = pre ++ rule :: post ∧
            (∀ ru ∈ pre,
              (runSteps stepEval_ts (nextOf (tfOf V f) form f) ru (.str "")
                chainOrder_ts ()).2.2 = .pass) ∧
            (runSteps stepEval_ts (nextOf (tfOf V f) form f) rule (.str "")
              chainOrder_ts ()).2.2 = .fail emsg ∧
            r = { rule with message := if jsTruthy emsg then emsg else rule.message })) := by
  intro V form hobj hnh
  have hval : validate_ts V form
      = .promise (aggregate (V.rules.map (fun p => (p.1, fieldOutCore_ts V p.1 form)))) := by
    simp [validate_ts, hobj]
  have hnh' : ∀ p ∈ V.rules.map (fun p => (p.1, fieldOutCore_ts V p.1 form)),
      p.2 ≠ FieldOut.hang := by
    intro p hp
    obtain ⟨q, hq, rfl⟩ := List.mem_map.mp hp
    exact hnh q hq
  refine ⟨?_, ?_, ?_⟩
  · rw [hval]
    constructor
    · intro h
      have hagg : aggregate (V.rules.map (fun p => (p.1, fieldOutCore_ts V p.1 form)))
          = .ok := by injection h
      rw [aggregate_ok_iff _ hnh'] at hagg
      intro p hp
      exact hagg (p.1, fieldOutCore_ts V p.1 form) (List.mem_map.mpr ⟨p, hp, rfl⟩)
    · intro h
      have hagg : aggregate (V.rules.map (fun p => (p.1, fieldOutCore_ts V p.1 form)))
          = .ok := by
        rw [aggregate_ok_iff _ hnh']
        intro p hp
        obtain ⟨q, hq, rfl⟩ := List.mem_map.mp hp
        exact h q hq
      rw [hagg]
  · intro m hm
    rw [hval] at hm
    have hagg : aggregate (V.rules.map (fun p => (p.1, fieldOutCore_ts V p.1 form)))
        = .err m := by injection hm
    constructor
    · intro f r
      rw [aggregate_err_mem _ m hagg f r]
      constructor
      · intro hmem
        obtain ⟨q, hq, heq⟩ := List.mem_map.mp hmem
        have hf : q.1 = f := congrArg Prod.fst heq
        have ho : fieldOutCore_ts V q.1 form = .fail r := congrArg Prod.snd heq
        rw [hf] at ho
        refine ⟨?_, ho⟩
        rw [← hf]
        exact List.mem_map.mpr ⟨q, hq, rfl⟩
      · rintro ⟨hf, ho⟩
        obtain ⟨q, hq, hq1⟩ := List.mem_map.mp hf
        refine List.mem_map.mpr ⟨q, hq, ?_⟩
        rw [hq1, ho]
    · intro hnod
      have hsub := aggregate_err_keys _ m hagg
      have hkeys : (V.rules.map (fun p => (p.1, fieldOutCore_ts V p.1 form))).map Prod.fst
          = V.rules.map Prod.fst := by
        rw [List.map_map]; rfl
      rw [hkeys] at hsub
      exact List.Nodup.sublist hsub hnod
  · intro f rules r hlook hout
    have hout' : (runRules stepEval_ts (nextOf (tfOf V f) form f) (.str "")
        chainOrder_ts rules ()).2.2 = .fail r := by
      rw [fieldOutCore_ts, hlook] at hout
      exact hout
    exact runRules_fail_decomp stepEval_ts (nextOf (tfOf V f) form f) (.str "")
      chainOrder_ts rules r hout'

/-- A second required rule used by the C1 witness. -/
def c1RuleB : Rule := { required := .bool true, message := .str "breq" }

/-- The C1 witness instance: two configured fields, both required. -/
def c1V : ValidatorTS Unit := { rules := [("a", [c6Rule]), ("b", [c1RuleB])], s0 := () }

/-- Witness for C1 at a concrete instance: both fields are absent from the
form, both fail, and the theorem's characterization applies. -/
theorem c1_witness :
    isObject (.obj 0 []) = true ∧
    (∀ p ∈ c1V.rules, fieldOutCore_ts c1V p.1 (.obj 0 []) ≠ .hang) ∧
    ((validate_ts c1V (.obj 0 []) = .promise .ok ↔
        ∀ p ∈ c1V.rules, fieldOutCore_ts c1V p.1 (.obj 0 []) = .pass) ∧
     (∀ m, validate_ts c1V (.obj 0 []) = .promise (.err m) →
        ((∀ f r, ((f, r) ∈ m ↔
            f ∈ c1V.rules.map Prod.fst ∧ fieldOutCore_ts c1V f (.obj 0 []) = .fail r)) ∧
         ((c1V.rules.map Prod.fst).Nodup → (m.map Prod.fst).Nodup))) ∧
     (∀ f rules r, c1V.rules.lookup f = some rules →
        fieldOutCore_ts c1V f (.obj 0 []) = .fail r →
        ∃ pre rule post emsg, rules = pre ++ rule :: post ∧
          (∀ ru ∈ pre,
            (runSteps stepEval_ts (nextOf (tfOf c1V f) (.obj 0 []) f) ru (.str "")
              chainOrder_ts ()).2.2 = .pass) ∧
          (runSteps stepEval_ts (nextOf (tfOf c1V f) (.obj 0 []) f) rule (.str "")
            chainOrder_ts ()).2.2 = .fail emsg ∧
          r = { rule with message := if jsTruthy emsg then emsg else rule.message })) := by
  have hnh : ∀ p ∈ c1V.rules, fieldOutCore_ts c1V p.1 (.obj 0 []) ≠ .hang := by
    intro p hp
    have hp' : p = ("a", [c6Rule]) ∨ p = ("b", [c1RuleB]) := by
      simpa [c1V] using hp
    rcases hp' with h | h <;> subst h
    · intro h
      have : FieldOut.fail c6Rule = FieldOut.hang := by
        rw [show fieldOutCore_ts c1V "a" (.obj 0 []) = .fail c6Rule from rfl] at h
        exact h
      cases this
    · intro h
      have : FieldOut.fail c1RuleB = FieldOut.hang := by
        rw [show fieldOutCore_ts c1V "b" (.obj 0 []) = .fail c1RuleB from rfl] at h
        exact h
      cases this
  exact ⟨rfl, hnh, c1_aggregate_complete c1V (.obj 0 []) rfl hnh⟩

/-- The C9 instance: one configured field, no transform option. -/
def c9V : ValidatorV2 Unit :=
  { rules := [("a", [{ required := .bool true }])], transform := none, s0 := () }

/-- Witness for C9 at a concrete instance. -/
theorem c9_witness :
    c9V.transform = none ∧
    c9V.rules.lookup "a" = some [{ required := .bool true }] ∧
    isObject (.obj 0 []) = true ∧
    c9V.rules ≠ [] ∧
    validateField_v2 c9V "a" (.obj 0 []) = .promise .hang ∧
    validate_v2 c9V (.obj 0 []) = .promise .hang :=
  ⟨rfl, rfl, rfl, fun h => List.noConfusion h,
    c9_missing_transform_hangs.1 Unit c9V "a" [{ required := .bool true }] (.obj 0 []) rfl rfl
      rfl,
    c9_missing_transform_hangs.2 Unit c9V (.obj 0 []) rfl (fun h => List.noConfusion h) rfl⟩

end VLib

